import Mathlib

/-
  Verification development for src/scrape_jobs.py (company-to-jobs).

  The Python source is shallowly embedded: pure string manipulation is
  translated to Lean functions on String / List Char; network effects are
  modelled by explicit oracle values describing the responses the process
  would receive; a Python function that may fall off its end (returning
  None) is given an Option result type.  Machine arithmetic does not occur
  in the source, so Nat is used throughout.
-/

/-- Truthiness of a Python value that is either None or a str: None and the
empty string are falsy. -/
def pyTruthy : Option String → Bool
  | none => false
  | some s => s ≠ ""

/-- Model of the Python expression a or b for values that are None-or-str:
the left operand is returned when truthy, otherwise the right operand. -/
def pyOr (a b : Option String) : Option String :=
  if pyTruthy a then a else b

/-- Model of str.strip(): remove leading and trailing whitespace.  Defined
on the character list so that it evaluates inside the kernel. -/
def strTrim (s : String) : String :=
  String.mk (((s.data.dropWhile Char.isWhitespace).reverse.dropWhile Char.isWhitespace).reverse)

/-- Model of str.lower() (ASCII, which is all the source relies on). -/
def strLower (s : String) : String := String.mk (s.data.map Char.toLower)

/-- Model of str.startswith(p). -/
def strStartsWith (s p : String) : Bool := p.data.isPrefixOf s.data

/-- Drop the first n characters of a string. -/
def strDrop (s : String) (n : Nat) : String := String.mk (s.data.drop n)

/-- Take the first n characters of a string, the effect of slicing with
an upper bound. -/
def strTake (s : String) (n : Nat) : String := String.mk (s.data.take n)

/-- Model of sep.join(parts). -/
def strJoin (sep : String) : List String → String
  | [] => ""
  | [x] => x
  | x :: y :: rest => x ++ sep ++ strJoin sep (y :: rest)

/-- Split a character list on a separator character; like str.split(sep)
this always returns at least one (possibly empty) part. -/
def splitOnCharAux (sep : Char) (acc : List Char) : List Char → List (List Char)
  | [] => [acc.reverse]
  | c :: rest =>
      if c == sep then acc.reverse :: splitOnCharAux sep [] rest
      else splitOnCharAux sep (c :: acc) rest

/-- String wrapper for splitOnCharAux. -/
def strSplitOnChar (sep : Char) (s : String) : List String :=
  (splitOnCharAux sep [] s.data).map String.mk

/- ------------------------------------------------------------------ -/
/- Identity Normalizer: normalize_domain (src/scrape_jobs.py lines 38-50) -/
/- ------------------------------------------------------------------ -/

/-- Characters that end the netloc component in urllib.parse: the netloc of
a double-slash authority extends up to the first of these. -/
def netlocStop (c : Char) : Bool := c == '/' || c == '?' || c == '#'

/-- Characters allowed after the first character of a URL scheme. -/
def schemeChar (c : Char) : Bool := c.isAlphanum || c == '+' || c == '-' || c == '.'

/-- A valid URL scheme: nonempty, first character a letter, remaining
characters scheme characters. -/
def validScheme : List Char → Bool
  | [] => false
  | c :: rest => c.isAlpha && rest.all schemeChar

/-- Split a character list at its first colon, returning the parts before
and after it, or none when no colon occurs. -/
def splitColon : List Char → Option (List Char × List Char)
  | [] => none
  | c :: rest =>
      if c == ':' then some ([], rest)
      else match splitColon rest with
        | some (a, b) => some (c :: a, b)
        | none => none

/-- The netloc of a character list that starts with a double-slash
authority: everything up to the first of slash, question mark, hash. -/
def netlocOfRest : List Char → List Char
  | '/' :: '/' :: r => r.takeWhile (fun c => !netlocStop c)
  | _ => []

/-- Model of urllib.parse.urlparse(s).netloc: when the text before the
first colon is a valid scheme the authority is looked for after it,
otherwise in the text itself. -/
def urlparseNetloc (s : List Char) : List Char :=
  match splitColon s with
  | some (sch, rest) =>
      if validScheme sch then netlocOfRest rest else netlocOfRest s
  | none => netlocOfRest s

/-- Model of the mismatched-square-bracket test urllib.parse applies to the
netloc; a True result makes urlparse raise ValueError (Invalid IPv6 URL). -/
def invalidIpv6 (nl : List Char) : Bool :=
  (nl.any (· == '[') && !nl.any (· == ']')) ||
  (nl.any (· == ']') && !nl.any (· == '['))

/-- Model of normalize_domain (src/scrape_jobs.py lines 38-50).  The input
is None (modelling a non-str value) or a string.  The result is
Except.error () when urlparse raises (mismatched bracket in the netloc),
otherwise ok none for the absent cases and ok (some host) for a parsed
host. -/
def normalize_domain (url : Option String) : Except Unit (Option String) :=
  match url with
  | none => .ok none
  | some u0 =>
      if strTrim u0 = "" then .ok none
      else
        let u := strTrim u0
        if strStartsWith u "No website:" then .ok none
        else
          let u2 := if strStartsWith u "http" then u else "https://" ++ u
          let nl := urlparseNetloc u2.data
          if invalidIpv6 nl then .error ()
          else
            let host := strLower (String.mk nl)
            let host := if strStartsWith host "www." then strDrop host 4 else host
            .ok (some host)

/- ------------------------------------------------------------------ -/
/- Slug Candidate Generator (src/scrape_jobs.py lines 52-96)           -/
/- ------------------------------------------------------------------ -/

/-- Model of the expression domain.split North.. more precisely: the Python
idiom domain.split(".")[0] if domain else None used by the orchestrator and
by infer_lever_company / infer_greenhouse_board_token /
infer_workable_subdomain (lines 52-65): the first dot-separated label of a
truthy domain, otherwise None. -/
def inferFirstLabel (domain : Option String) : Option String :=
  if pyTruthy domain then some ((strSplitOnChar '.' (domain.getD "")).headD "")
  else none

/-- Lower-case ASCII letter or digit, the character class the slugifier
keeps (the regex [^a-z0-9]+ runs after lowercasing). -/
def lowerAlnum (c : Char) : Bool :=
  (Char.ofNat 97 ≤ c && c ≤ Char.ofNat 122) || (Char.ofNat 48 ≤ c && c ≤ Char.ofNat 57)

/-- First substitution of slugify_name: every character outside [a-z0-9]
becomes a hyphen (the run-collapsing is done by collapseDashes, mirroring
the second substitution). -/
def dashify (c : Char) : Char := if lowerAlnum c then c else '-'

/-- Collapse every run of consecutive hyphens to a single hyphen, the
effect of re.sub applied with pattern -+ and replacement -. -/
def collapseDashes : List Char → List Char
  | [] => []
  | [c] => [c]
  | c :: d :: rest =>
      if c == '-' && d == '-' then collapseDashes (d :: rest)
      else c :: collapseDashes (d :: rest)

/-- Remove leading and trailing hyphens, the effect of str.strip("-"). -/
def stripDashes (l : List Char) : List Char :=
  ((l.dropWhile (· == '-')).reverse.dropWhile (· == '-')).reverse

/-- Model of slugify_name (src/scrape_jobs.py lines 67-73): lowercase the
stripped name, replace runs of non-alphanumerics by single hyphens, strip
hyphens, and return None when the result (or the input) is empty. -/
def slugify_name (name : Option String) : Option String :=
  match name with
  | none => none
  | some n =>
      if strTrim n = "" then none
      else
        let s := strLower (strTrim n)
        let s2 := stripDashes (collapseDashes (s.data.map dashify))
        if s2 = [] then none else some (String.mk s2)

/-- The candidate list generate_slug_variants builds before de-duplication
(src/scrape_jobs.py lines 76-88): optional domain label first, then the
base slug and its five suffixed variants when the base is nonempty. -/
def slugRawVariants (name : String) (domain_first_label : Option String) : List String :=
  let base := (slugify_name (some name)).getD ""
  (if pyTruthy domain_first_label then [domain_first_label.getD ""] else []) ++
  (if base ≠ "" then
      [base, base ++ "-labs", base ++ "-foundation", base ++ "-protocol",
       base ++ "-network", base ++ "-team"]
    else [])

/-- The order-preserving de-duplication loop of generate_slug_variants
(src/scrape_jobs.py lines 90-95): keep a candidate when it is truthy and
not yet seen. -/
def dedupSlugs (seen : List String) : List String → List String
  | [] => []
  | v :: rest =>
      if v ≠ "" ∧ v ∉ seen then v :: dedupSlugs (v :: seen) rest
      else dedupSlugs seen rest

/-- Model of generate_slug_variants (src/scrape_jobs.py lines 75-96). -/
def generate_slug_variants (name : String) (domain_first_label : Option String) : List String :=
  dedupSlugs [] (slugRawVariants name domain_first_label)

/- ------------------------------------------------------------------ -/
/- Job records and backend adapters                                    -/
/- ------------------------------------------------------------------ -/

/-- The normalized job dictionary every adapter produces
(title/location/type/salary/description/url/source). -/
structure Job where
  job_title : Option String
  job_location : Option String
  job_type : Option String
  job_salary : Option String
  job_description_short : String
  job_url : Option String
  source_raw : String
deriving DecidableEq, Repr

/-- Plain-text extraction from markup, modelling
BeautifulSoup(...).get_text() on simple well-formed markup: characters
between angle brackets are removed. -/
def stripHtmlChars : Bool → List Char → List Char
  | _, [] => []
  | true, c :: rest =>
      if c == '>' then stripHtmlChars false rest else stripHtmlChars true rest
  | false, c :: rest =>
      if c == '<' then stripHtmlChars true rest else c :: stripHtmlChars false rest

/-- String-level wrapper for stripHtmlChars. -/
def stripHtml (s : String) : String := String.mk (stripHtmlChars false s.data)

/-- The categories.location field of a Lever posting: either a list of
tagged entries (each contributing its text value) or a scalar
string-or-None. -/
inductive LeverLocField where
  | tags (ls : List String)
  | other (v : Option String)
deriving DecidableEq, Repr

/-- A Lever posting as far as fetch_lever_jobs reads it. -/
structure LeverPosting where
  text : Option String
  location : LeverLocField
  commitment : Option String
  description : String
  hostedUrl : Option String
  applyUrl : Option String
deriving DecidableEq, Repr

/-- The location string fetch_lever_jobs derives: a list field is joined
with a comma separator, a scalar is passed through. -/
def leverLocation : LeverLocField → Option String
  | .tags ls => some (strJoin ", " ls)
  | .other v => v

/-- One HTTP response to a Lever API request: status code and the parsed
JSON body, with error modelling an unparseable payload. -/
structure LeverResp where
  status : Nat
  body : Except Unit (List LeverPosting)

/-- The network behaviour fetch_lever_jobs can observe: the primary
api.lever.co response and the api.eu.lever.co fallback response, none
modelling a raised transport exception. -/
structure LeverNet where
  primary : Option LeverResp
  alt : Option LeverResp

/-- Mapping of one Lever posting into the common job record
(src/scrape_jobs.py lines 114-128). -/
def leverJobOf (url : String) (p : LeverPosting) : Job :=
  { job_title := p.text
    job_location := leverLocation p.location
    job_type := p.commitment
    job_salary := none
    job_description_short := strTake (stripHtml p.description) 500
    job_url := pyOr p.hostedUrl p.applyUrl
    source_raw := url }

/-- The body-parsing tail of fetch_lever_jobs: an unparseable body yields
the empty list (the exception is swallowed), a parsed list is clipped to
max_jobs and mapped into job records. -/
def leverParse (url : String) (body : Except Unit (List LeverPosting)) (max_jobs : Nat) : List Job :=
  match body with
  | .error _ => []
  | .ok data => (data.take max_jobs).map (leverJobOf url)

/-- Model of fetch_lever_jobs (src/scrape_jobs.py lines 98-131): empty on a
falsy slug; primary endpoint first, EU endpoint when the primary status is
not 200; every failure path returns the empty list. -/
def fetch_lever_jobs (net : LeverNet) (company_slug : Option String) (max_jobs : Nat) : List Job :=
  match company_slug with
  | none => []
  | some s =>
      if s = "" then []
      else
        match net.primary with
        | none => []
        | some r =>
            if r.status = 200 then
              leverParse ("https://api.lever.co/v0/postings/" ++ s) r.body max_jobs
            else
              match net.alt with
              | none => []
              | some r2 =>
                  if r2.status = 200 then
                    leverParse ("https://api.eu.lever.co/v0/postings/" ++ s) r2.body max_jobs
                  else []

/-- Model of fetch_breezy_jobs (src/scrape_jobs.py lines 567-569).  The
source function consists only of the falsy-identifier guard: the rest of
its intended body was absorbed, unreachable, into the following top-level
definition of fetch_wellfound_jobs_html (lines 609-639, after that
function has already returned).  For a truthy subdomain control falls off
the end of the Python function, producing None, modelled here as none;
the guard path returns the empty list, modelled as some []. -/
def fetch_breezy_jobs (subdomain : Option String) (max_jobs : Nat) : Option (List Job) :=
  if pyTruthy subdomain then none else some []

/- ------------------------------------------------------------------ -/
/- Aggregation: the per-job and per-company loops of main              -/
/- (src/scrape_jobs.py lines 852-854, 1091-1112)                       -/
/- ------------------------------------------------------------------ -/

/-- The source fixes the global cap at 1000 (src/scrape_jobs.py line 16);
the loop models below take the cap as a parameter so that it can be
instantiated, like the environment-configurable per-company cap. -/
def MAX_TOTAL_JOBS : Nat := 1000

/-- One output row of main, with the columns of out_cols
(src/scrape_jobs.py lines 1097-1111 and 1113-1127). -/
structure Row where
  company_name : String
  company_website : String
  ats : String
  job_title : Option String
  job_location : String
  job_type : Option String
  job_salary : Option String
  job_description_short : String
  job_contact_person : Option String
  job_contact_email : Option String
  job_url : Option String
  source_raw : String
  date : String
deriving DecidableEq, Repr

/-- The per-company context main captures before emitting rows: company
name, website, the currently displayed ats label, the lead contact and the
run date. -/
structure CompanyCtx where
  company : String
  website : String
  ats : String
  lc : String
  date : String
deriving DecidableEq, Repr

/-- The aggregation state of main: the accumulated rows and the global
counter total_jobs. -/
structure RunState where
  rows : List Row
  total : Nat
deriving DecidableEq, Repr

/-- The location filter of main (src/scrape_jobs.py lines 1094-1096): a
job is kept when its location value is truthy and strips to a nonempty
string. -/
def keepJob (j : Job) : Bool :=
  match j.job_location with
  | none => false
  | some l => l ≠ "" && strTrim l ≠ ""

/-- The row main appends for a kept job (src/scrape_jobs.py lines
1097-1111). -/
def mkRow (ctx : CompanyCtx) (j : Job) : Row :=
  { company_name := ctx.company
    company_website := ctx.website
    ats := ctx.ats
    job_title := j.job_title
    job_location := j.job_location.getD ""
    job_type := j.job_type
    job_salary := j.job_salary
    job_description_short := j.job_description_short
    job_contact_person := if ctx.lc = "" then none else some ctx.lc
    job_contact_email := none
    job_url := j.job_url
    source_raw := j.source_raw
    date := ctx.date }

/-- The inner per-job loop of main (src/scrape_jobs.py lines 1091-1112):
break once total_jobs reaches the global cap, skip jobs failing the
location filter, append a row and increment the counter otherwise. -/
def mainJobLoop (ctx : CompanyCtx) (maxTot : Nat) : List Job → RunState → RunState
  | [], s => s
  | j :: rest, s =>
      if maxTot ≤ s.total then s
      else if keepJob j then
        mainJobLoop ctx maxTot rest { rows := s.rows ++ [mkRow ctx j], total := s.total + 1 }
      else mainJobLoop ctx maxTot rest s

/-- The outer per-company loop of main (src/scrape_jobs.py lines 852-854):
break before a company when the global cap is already reached, otherwise
run the per-job loop on the jobs that company resolved to.  Each company
is abstracted to its context together with the job list its resolution
produced. -/
def mainCompanyLoop (maxTot : Nat) : List (CompanyCtx × List Job) → RunState → RunState
  | [], s => s
  | c :: rest, s =>
      if maxTot ≤ s.total then s
      else mainCompanyLoop maxTot rest (mainJobLoop c.1 maxTot c.2 s)

/- ------------------------------------------------------------------ -/
/- Diff/Persistence Engine (src/scrape_jobs.py lines 1130-1164)        -/
/- ------------------------------------------------------------------ -/

/-- The composite deduplication key (src/scrape_jobs.py lines 1131-1139):
lowercase company name, job url, job title and job location, joined with a
vertical-bar separator, absent values filled with the empty string. -/
def rowKey (r : Row) : String :=
  strLower r.company_name ++ "|" ++ strLower (r.job_url.getD "") ++ "|" ++
  strLower (r.job_title.getD "") ++ "|" ++ strLower r.job_location

/-- The new-rows output (src/scrape_jobs.py line 1160): the rows of the
current run whose key is not among the keys of the persisted store. -/
def diffRows (outRows baseRows : List Row) : List Row :=
  outRows.filter (fun r => !(baseRows.map rowKey).contains (rowKey r))

/-- Key-based first-kept de-duplication, the effect of
pandas drop_duplicates on the key column (src/scrape_jobs.py line 1163):
a row is kept when its key has not been seen earlier in the list. -/
def dropDupKeys (seen : List String) : List Row → List Row
  | [] => []
  | r :: rest =>
      if rowKey r ∈ seen then dropDupKeys seen rest
      else r :: dropDupKeys (rowKey r :: seen) rest

/-- The rewritten persisted store (src/scrape_jobs.py lines 1162-1164):
previous store rows first, then the current run rows, de-duplicated by
key keeping the first occurrence. -/
def updatedBase (baseRows outRows : List Row) : List Row :=
  dropDupKeys [] (baseRows ++ outRows)

/- ------------------------------------------------------------------ -/
/- Discovery Sniffer (src/scrape_jobs.py lines 369-511)                -/
/- ------------------------------------------------------------------ -/

/-- The character class [A-Za-z0-9_-] used by every fingerprint capture
group for slugs and tokens. -/
def slugChar (c : Char) : Bool := c.isAlphanum || c == '-' || c == '_'

/-- The character class [A-Za-z0-9.-] used by the workday host capture. -/
def hostChar (c : Char) : Bool := c.isAlphanum || c == '.' || c == '-'

/-- Take the maximal run of characters satisfying p, returning the run and
the remainder. -/
def takeRun (p : Char → Bool) : List Char → List Char × List Char
  | [] => ([], [])
  | c :: rest =>
      if p c then
        let (r, t) := takeRun p rest
        (c :: r, t)
      else ([], c :: rest)

/-- Scanner for a fingerprint of shape literal, capture group, literal:
at each position, when the leading literal matches, a nonempty run of
allowed characters is captured if the trailing literal follows it;
otherwise scanning continues at the next position (re.search keeps
looking for a later match). -/
def capAfterChars (lit post : List Char) (allowed : Char → Bool) : List Char → Option (List Char)
  | [] => none
  | s@(_ :: rest) =>
      if lit.isPrefixOf s then
        let t := s.drop lit.length
        let (run, t2) := takeRun allowed t
        if run ≠ [] && post.isPrefixOf t2 then some run
        else capAfterChars lit post allowed rest
      else capAfterChars lit post allowed rest

/-- Scanner for a fingerprint of shape capture group, literal (with an
optional alternation of trailing literals): at each position starting a
run of allowed characters, the maximal run is captured when one of the
trailing literals follows it. -/
def capBeforeChars (posts : List (List Char)) (allowed : Char → Bool) : List Char → Option (List Char)
  | [] => none
  | s@(c :: rest) =>
      if allowed c then
        let (run, t) := takeRun allowed s
        if posts.any (fun p => p.isPrefixOf t) then some run
        else capBeforeChars posts allowed rest
      else capBeforeChars posts allowed rest

/-- String wrapper for capAfterChars with the slug character class. -/
def capAfterS (lit post : String) (s : String) : Option String :=
  (capAfterChars lit.data post.data slugChar s.data).map String.mk

/-- String wrapper for capBeforeChars with the slug character class. -/
def capBeforeS (posts : List String) (s : String) : Option String :=
  (capBeforeChars (posts.map String.data) slugChar s.data).map String.mk

/-- The greedy any-but-quote segment of the workable API fingerprint: find
the last occurrence of accounts/ before any double quote that is followed
by a nonempty token. -/
def wkApiAcc : List Char → Option (List Char)
  | [] => none
  | s@(c :: rest) =>
      if c == '"' then none
      else
        match wkApiAcc rest with
        | some r => some r
        | none =>
            let lit := "accounts/".data
            if lit.isPrefixOf s then
              let (run, _) := takeRun slugChar (s.drop lit.length)
              if run ≠ [] then some run else none
            else none

/-- Scanner for the workable API fingerprint
workable.com/api/ then any non-quote characters then accounts/ then a
token (src/scrape_jobs.py line 409). -/
def wkApiScan : List Char → Option (List Char)
  | [] => none
  | s@(_ :: rest) =>
      let lit := "workable.com/api/".data
      if lit.isPrefixOf s then
        match wkApiAcc (s.drop lit.length) with
        | some run => some run
        | none => wkApiScan rest
      else wkApiScan rest

/-- The lazy tail of the workday page fingerprint after the host: a slash,
a shortest run free of whitespace and quotes, a slash, then the site
token (src/scrape_jobs.py line 432). -/
def wdSiteGo : List Char → Option (List Char)
  | [] => none
  | c :: rest =>
      if c == '/' then
        let (run, _) := takeRun slugChar rest
        if run ≠ [] then some run else wdSiteGo rest
      else if c.isWhitespace || c == '"' || c == Char.ofNat 39 then none
      else wdSiteGo rest

/-- Entry to wdSiteGo: the mandatory slash right after the workday host. -/
def wdSiteScan : List Char → Option (List Char)
  | '/' :: rest => wdSiteGo rest
  | _ => none

/-- Scanner for the raw-markup workday fingerprint: https scheme, host
run ending in the myworkdayjobs domain, then the lazy site tail; returns
the host part before the domain together with the site token. -/
def wdHtmlScan : List Char → Option (List Char × List Char)
  | [] => none
  | s@(_ :: rest) =>
      let lit := "https://".data
      if lit.isPrefixOf s then
        let (run, t2) := takeRun hostChar (s.drop lit.length)
        let dom := ".myworkdayjobs.com".data
        if dom.isSuffixOf run && dom.length < run.length then
          match wdSiteScan t2 with
          | some g2 => some (run.take (run.length - dom.length), g2)
          | none => wdHtmlScan rest
        else wdHtmlScan rest
      else wdHtmlScan rest

/-- The lazy tail of the attribute workday fingerprint: a slash, at least
one character (anything but a newline), a slash, then the site token
(src/scrape_jobs.py line 487). -/
def wdTailGo : List Char → Option (List Char)
  | [] => none
  | c :: rest =>
      if c == '/' then
        let (run, _) := takeRun slugChar rest
        if run ≠ [] then some run else wdTailGo rest
      else if c == Char.ofNat 10 then none
      else wdTailGo rest

/-- Entry to wdTailGo: mandatory slash, then the first (mandatory) lazy
character. -/
def wdTail : List Char → Option (List Char)
  | '/' :: c :: rest => if c == Char.ofNat 10 then none else wdTailGo rest
  | _ => none

/-- Scanner for the attribute workday fingerprint: host run ending in the
myworkdayjobs domain (no scheme required), then the lazy site tail. -/
def wdAttrScan : List Char → Option (List Char × List Char)
  | [] => none
  | s@(c :: rest) =>
      if hostChar c then
        let (run, t) := takeRun hostChar s
        let dom := ".myworkdayjobs.com".data
        if dom.isSuffixOf run && dom.length < run.length then
          match wdTail t with
          | some g2 => some (run.take (run.length - dom.length), g2)
          | none => wdAttrScan rest
        else wdAttrScan rest
      else wdAttrScan rest

/-- Packing of a workday match into the backend/identifier pair: the
identifier carries host, tenant (first host label) and site separated by
vertical bars (src/scrape_jobs.py lines 433-437). -/
def wdPack (g : List Char × List Char) : String × String :=
  let host := String.mk g.1 ++ ".myworkdayjobs.com"
  let tenant := String.mk (g.1.takeWhile (fun c => c ≠ '.'))
  ("workday", host ++ "|" ++ tenant ++ "|" ++ String.mk g.2)

/-- Scanner for the attribute greenhouse fingerprint with its optional
embed segment: capture after the embed query parameter when present,
otherwise right after the board prefix (src/scrape_jobs.py line 465). -/
def ghAttrScan : List Char → Option (List Char)
  | [] => none
  | s@(_ :: rest) =>
      let lit := "boards.greenhouse.io/".data
      if lit.isPrefixOf s then
        let t := s.drop lit.length
        let emb := "embed/job_board/js?for=".data
        let viaEmb :=
          if emb.isPrefixOf t then
            let (run, _) := takeRun slugChar (t.drop emb.length)
            if run ≠ [] then some run else none
          else none
        match viaEmb with
        | some r => some r
        | none =>
            let (run, _) := takeRun slugChar t
            if run ≠ [] then some run else ghAttrScan rest
      else ghAttrScan rest

/-- Scanner for the attribute lever fingerprint with its optional eu
segment (src/scrape_jobs.py line 468). -/
def lvAttrScan : List Char → Option (List Char)
  | [] => none
  | s@(_ :: rest) =>
      let litEu := "jobs.eu.lever.co/".data
      let lit := "jobs.lever.co/".data
      if litEu.isPrefixOf s then
        let (run, _) := takeRun slugChar (s.drop litEu.length)
        if run ≠ [] then some run else lvAttrScan rest
      else if lit.isPrefixOf s then
        let (run, _) := takeRun slugChar (s.drop lit.length)
        if run ≠ [] then some run else lvAttrScan rest
      else lvAttrScan rest

/-- Scanner for the attribute smartrecruiters fingerprint, an alternation
of the careers and jobs hosts (src/scrape_jobs.py line 493). -/
def smAttrScan : List Char → Option (List Char)
  | [] => none
  | s@(_ :: rest) =>
      let litC := "careers.smartrecruiters.com/".data
      let litJ := "jobs.smartrecruiters.com/".data
      if litC.isPrefixOf s then
        let (run, _) := takeRun slugChar (s.drop litC.length)
        if run ≠ [] then some run else smAttrScan rest
      else if litJ.isPrefixOf s then
        let (run, _) := takeRun slugChar (s.drop litJ.length)
        if run ≠ [] then some run else smAttrScan rest
      else smAttrScan rest

/-- Tag a captured identifier with its backend name. -/
def tagged (b : String) (f : String → Option String) : String → Option (String × String) :=
  fun s => (f s).map (fun t => (b, t))

/-- First match over an ordered battery of fingerprint checks. -/
def firstSome (s : String) : List (String → Option (String × String)) → Option (String × String)
  | [] => none
  | f :: rest =>
      match f s with
      | some r => some r
      | none => firstSome s rest

/-- The ordered raw-markup fingerprint battery of
discover_ats_from_website (src/scrape_jobs.py lines 389-460). -/
def htmlChecks : List (String → Option (String × String)) :=
  [tagged "greenhouse" (capAfterS "boards.greenhouse.io/embed/job_board/js?for=" ""),
   tagged "greenhouse" (capAfterS "boards.greenhouse.io/" "/jobs"),
   tagged "lever" (capAfterS "jobs.lever.co/" ""),
   tagged "lever" (capAfterS "jobs.eu.lever.co/" ""),
   tagged "lever" (capAfterS "api.lever.co/v0/postings/" ""),
   tagged "workable" (capAfterS "apply.workable.com/" ""),
   tagged "workable" (fun s => (wkApiScan s.data).map String.mk),
   tagged "ashby" (capAfterS "jobs.ashbyhq.com/" ""),
   tagged "ashby" (capAfterS "api.ashbyhq.com/posting-api/job-board/" ""),
   tagged "recruitee" (capBeforeS [".recruitee.com"]),
   tagged "personio" (capBeforeS [".jobs.personio.de", ".jobs.personio.com"]),
   tagged "breezy" (capBeforeS [".breezy.hr"]),
   (fun s => (wdHtmlScan s.data).map wdPack),
   tagged "bamboohr" (capBeforeS [".bamboohr.com"]),
   tagged "smartrecruiters" (capAfterS "careers.smartrecruiters.com/" ""),
   tagged "smartrecruiters" (capAfterS "jobs.smartrecruiters.com/" ""),
   tagged "deel" (capAfterS "jobs.deel.com/job-boards/" ""),
   tagged "keka" (capBeforeS [".keka.com/careers"]),
   tagged "polymer" (capAfterS "jobs.polymer.co/" "")]

/-- The ordered per-attribute fingerprint battery of
discover_ats_from_website (src/scrape_jobs.py lines 461-508). -/
def attrChecks : List (String → Option (String × String)) :=
  [tagged "greenhouse" (fun s => (ghAttrScan s.data).map String.mk),
   tagged "lever" (fun s => (lvAttrScan s.data).map String.mk),
   tagged "workable" (capAfterS "apply.workable.com/" ""),
   tagged "ashby" (capAfterS "jobs.ashbyhq.com/" ""),
   tagged "recruitee" (capBeforeS [".recruitee.com"]),
   tagged "personio" (capBeforeS [".jobs.personio.de", ".jobs.personio.com"]),
   tagged "breezy" (capBeforeS [".breezy.hr"]),
   (fun s => (wdAttrScan s.data).map wdPack),
   tagged "smartrecruiters" (fun s => (smAttrScan s.data).map String.mk),
   tagged "wellfound" (capAfterS "wellfound.com/company/" "/jobs"),
   tagged "deel" (capAfterS "jobs.deel.com/job-boards/" ""),
   tagged "keka" (capBeforeS [".keka.com/careers"]),
   tagged "polymer" (capAfterS "jobs.polymer.co/" "")]

/-- A fetched careers page as the sniffer sees it: the raw markup and the
href/src/data-src attribute values of the anchor, script and iframe
elements in document order (the source skips falsy values, modelled by
skipping empty strings). -/
structure Page where
  html : String
  attrs : List String
deriving DecidableEq

/-- An HTTP response in the discovery model: status code and page. -/
structure HttpResp where
  status : Nat
  page : Page
deriving DecidableEq

/-- The full fingerprint battery run on one successful page: the raw
markup checks first, then the per-attribute checks. -/
def sniffAttrs : List String → Option (String × String)
  | [] => none
  | v :: rest =>
      if v = "" then sniffAttrs rest
      else
        match firstSome v attrChecks with
        | some r => some r
        | none => sniffAttrs rest

/-- Pattern battery over a whole page: markup battery, then attribute
battery. -/
def sniffPage (p : Page) : Option (String × String) :=
  match firstSome p.html htmlChecks with
  | some r => some r
  | none => sniffAttrs p.attrs

/-- The fixed candidate careers paths (src/scrape_jobs.py lines 372-380). -/
def discoverCandidates (domain : String) : List String :=
  ["https://" ++ domain ++ "/careers",
   "https://" ++ domain ++ "/jobs",
   "https://" ++ domain ++ "/join-us",
   "https://" ++ domain ++ "/careers/",
   "https://" ++ domain ++ "/work-with-us",
   "https://" ++ domain ++ "/open-roles",
   "https://" ++ domain ++ "/about/careers"]

/-- The candidate loop of discover_ats_from_website (src/scrape_jobs.py
lines 381-511): a failed request (none) or a non-200 status moves to the
next candidate; on a 200 page the battery result is returned when some
pattern matches, and when none matches the loop body simply ends, so the
loop moves to the next candidate as well. -/
def discoverLoop (world : String → Option HttpResp) : List String → Option String × Option String
  | [] => (none, none)
  | url :: rest =>
      match world url with
      | none => discoverLoop world rest
      | some resp =>
          if resp.status ≠ 200 then discoverLoop world rest
          else
            match sniffPage resp.page with
            | some r => (some r.1, some r.2)
            | none => discoverLoop world rest

/-- Model of discover_ats_from_website (src/scrape_jobs.py lines
369-511), parameterized by the network world mapping each URL to the
response it produces (none models a raised request exception). -/
def discover_ats_from_website (world : String → Option HttpResp) (domain : Option String) :
    Option String × Option String :=
  if pyTruthy domain then discoverLoop world (discoverCandidates (domain.getD ""))
  else (none, none)

/- ------------------------------------------------------------------ -/
/- Resolution Orchestrator dispatch (src/scrape_jobs.py lines 828-1080) -/
/- ------------------------------------------------------------------ -/

/-- Truthiness of the Python variable jobs in main, which can hold a list
or (through the breezy slip) None. -/
def pyJobsTruthy : Option (List Job) → Bool
  | none => false
  | some js => js ≠ []

/-- The per-backend adapter behaviour the orchestrator invokes, abstracted
to the job lists each call would produce for a given identifier.  The
breezy adapter returns an optional list because its source body can fall
off the end; generic stands for the find_careers_page / fetch_jsonld_jobs
/ fetch_dom_jobs fallback chain, which no claim inspects in detail. -/
structure Adapters where
  lever : Option String → List Job
  lever_html : Option String → List Job
  greenhouse : Option String → List Job
  greenhouse_html : Option String → List Job
  workable : Option String → List Job
  ashby : Option String → List Job
  recruitee : Option String → List Job
  personio : Option String → List Job
  breezy : Option String → Option (List Job)
  wellfound : Option String → List Job
  keka : Option String → List Job
  deel : Option String → List Job
  polymer : Option String → List Job
  workday : Option String → Option String → Option String → List Job
  bamboohr : Option String → List Job
  smartrecruiters : Option String → List Job
  generic : Option String → List Job

/-- The static lever slug corrections (src/scrape_jobs.py lines 828-840),
keyed by lowercase company name. -/
def lever_overrides : List (String × String) :=
  [("aave", "aavelabs"), ("aave labs", "aavelabs"), ("aragon", "aragon"),
   ("wintermute", "wintermute-trading"), ("wintermute trading", "wintermute-trading"),
   ("seilabs", "SeiLabs"), ("sei labs", "SeiLabs"), ("zerion", "zerion"),
   ("crypto.com", "cryptocom"), ("bebop", "wintermute-trading"),
   ("bebob", "wintermute-trading")]

/-- The static company overrides mapping lowercase company name to backend
and identifier (src/scrape_jobs.py lines 841-851). -/
def company_overrides : List (String × String × String) :=
  [("chainlink", "ashby", "chainlink-labs"), ("chainlink labs", "ashby", "chainlink-labs"),
   ("aave", "lever", "aavelabs"), ("aave labs", "lever", "aavelabs"),
   ("optimism", "ashby", "opfoundation"), ("op labs", "ashby", "opfoundation"),
   ("bebop", "lever", "wintermute-trading"), ("bebob", "lever", "wintermute-trading")]

/-- Dictionary lookup on an association list keyed by string. -/
def lookupStr (l : List (String × String)) (k : String) : Option String :=
  match l.find? (fun p => p.1 == k) with
  | some p => some p.2
  | none => none

/-- The ats_clean / override_token computation of main (src/scrape_jobs.py
lines 859-864): a company override fully determines backend and
identifier, otherwise the declared ats is stripped and lowercased. -/
def resolveAts (company ats : String) : String × Option String :=
  match company_overrides.find? (fun p => p.1 == strLower company) with
  | some p => (p.2.1, some p.2.2)
  | none => (strLower (strTrim ats), none)

/-- The candidate-slug retry loop shared by every declared-backend branch
(for cand in generate_slug_variants: jobs = fetch(cand); if jobs: break):
returns the final value of the jobs variable and the trace of adapter
invocations it made, tagged with the backend name. -/
def candLoop {α : Type} (f : Option String → α) (truthy : α → Bool) (tag : String)
    (cur : α) : List String → α × List (String × Option String)
  | [] => (cur, [])
  | c :: rest =>
      let v := f (some c)
      if truthy v then (v, [(tag, some c)])
      else
        ((candLoop f truthy tag v rest).1,
         (tag, some c) :: (candLoop f truthy tag v rest).2)

/-- A declared-backend branch without an HTML fallback: primary adapter
call on the branch identifier, then the candidate-slug retry loop
(src/scrape_jobs.py lines 902-1000, the workable/ashby/recruitee/personio/
wellfound/keka/deel/polymer shapes). -/
def apiBranch (f : Option String → List Job) (tag : String) (ident : Option String)
    (company : String) (domain : Option String) : List Job × List (String × Option String) :=
  let js := f ident
  if js ≠ [] then (js, [(tag, ident)])
  else
    let c := candLoop f (fun l => l ≠ []) tag js
      (generate_slug_variants company (inferFirstLabel domain))
    (c.1, (tag, ident) :: c.2)

/-- The lever branch of main (src/scrape_jobs.py lines 868-886): override
token or inferred slug, corrected by the lever override table, then the
primary call, the candidate retry loop and the HTML fallback. -/
def leverBranch (A : Adapters) (company : String) (domain tok : Option String) :
    List Job × List (String × Option String) :=
  let slug0 := pyOr tok (inferFirstLabel domain)
  let slug :=
    if company ≠ "" then
      match lookupStr lever_overrides (strLower company) with
      | some s => some s
      | none => slug0
    else slug0
  let js := A.lever slug
  let c :=
    if js ≠ [] then (js, ([] : List (String × Option String)))
    else candLoop A.lever (fun l => l ≠ []) "lever" js
      (generate_slug_variants company (inferFirstLabel domain))
  if c.1 ≠ [] then (c.1, ("lever", slug) :: c.2)
  else (A.lever_html slug, ("lever", slug) :: c.2 ++ [("lever_html", slug)])

/-- The greenhouse branch of main (src/scrape_jobs.py lines 887-901):
primary call, candidate retry loop, HTML fallback. -/
def greenhouseBranch (A : Adapters) (company : String) (domain tok : Option String) :
    List Job × List (String × Option String) :=
  let ident := pyOr tok (inferFirstLabel domain)
  let js := A.greenhouse ident
  let c :=
    if js ≠ [] then (js, ([] : List (String × Option String)))
    else candLoop A.greenhouse (fun l => l ≠ []) "greenhouse" js
      (generate_slug_variants company (inferFirstLabel domain))
  if c.1 ≠ [] then (c.1, ("greenhouse", ident) :: c.2)
  else (A.greenhouse_html ident, ("greenhouse", ident) :: c.2 ++ [("greenhouse_html", ident)])

/-- The breezy branch of main (src/scrape_jobs.py lines 946-956): the jobs
variable may become None through the adapter slip, so the branch result is
an optional list. -/
def breezyBranch (A : Adapters) (company : String) (domain tok : Option String) :
    Option (List Job) × List (String × Option String) :=
  let sub := pyOr tok (inferFirstLabel domain)
  let js := A.breezy sub
  if pyJobsTruthy js then (js, [("breezy", sub)])
  else
    let c := candLoop A.breezy pyJobsTruthy "breezy" js
      (generate_slug_variants company (inferFirstLabel domain))
    (c.1, ("breezy", sub) :: c.2)

/-- The identifier used by the wellfound, deel and polymer branches: token,
else the first domain label, else the slugified company name
(src/scrape_jobs.py lines 958, 980, 991). -/
def wfIdent (tok domain : Option String) (company : String) : Option String :=
  pyOr tok (if pyTruthy domain then inferFirstLabel domain else slugify_name (some company))

/-- The declared-backend dispatch of main (src/scrape_jobs.py lines
868-1002): one branch per declared backend in source order, and the final
else branch that merely sets jobs to the empty list.  Returns the value of
the jobs variable and the trace of adapter invocations, each tagged with
the adapter's backend name and the identifier passed. -/
def declaredBranch (A : Adapters) (ats_clean company : String) (domain tok : Option String) :
    Option (List Job) × List (String × Option String) :=
  if ats_clean = "lever" then
    (some (leverBranch A company domain tok).1, (leverBranch A company domain tok).2)
  else if ats_clean = "greenhouse" then
    (some (greenhouseBranch A company domain tok).1, (greenhouseBranch A company domain tok).2)
  else if ats_clean = "workable" then
    (some (apiBranch A.workable "workable" (pyOr tok (inferFirstLabel domain)) company domain).1, (apiBranch A.workable "workable" (pyOr tok (inferFirstLabel domain)) company domain).2)
  else if ats_clean = "ashby" then
    (some (apiBranch A.ashby "ashby" (pyOr tok (inferFirstLabel domain)) company domain).1, (apiBranch A.ashby "ashby" (pyOr tok (inferFirstLabel domain)) company domain).2)
  else if ats_clean = "recruitee" then
    (some (apiBranch A.recruitee "recruitee" (pyOr tok (inferFirstLabel domain)) company domain).1, (apiBranch A.recruitee "recruitee" (pyOr tok (inferFirstLabel domain)) company domain).2)
  else if ats_clean = "personio" then
    (some (apiBranch A.personio "personio" (pyOr tok (inferFirstLabel domain)) company domain).1, (apiBranch A.personio "personio" (pyOr tok (inferFirstLabel domain)) company domain).2)
  else if ats_clean = "breezy" then
    breezyBranch A company domain tok
  else if ats_clean = "wellfound" then
    (some (apiBranch A.wellfound "wellfound" (wfIdent tok domain company) company domain).1, (apiBranch A.wellfound "wellfound" (wfIdent tok domain company) company domain).2)
  else if ats_clean = "keka" then
    (some (apiBranch A.keka "keka" (pyOr tok (inferFirstLabel domain)) company domain).1, (apiBranch A.keka "keka" (pyOr tok (inferFirstLabel domain)) company domain).2)
  else if ats_clean = "deel" then
    (some (apiBranch A.deel "deel" (wfIdent tok domain company) company domain).1, (apiBranch A.deel "deel" (wfIdent tok domain company) company domain).2)
  else if ats_clean = "polymer" then
    (some (apiBranch A.polymer "polymer" (wfIdent tok domain company) company domain).1, (apiBranch A.polymer "polymer" (wfIdent tok domain company) company domain).2)
  else (some [], [])

/-- The unpacking of a discovered workday token (src/scrape_jobs.py line
1037): split on vertical bars, padded with None to three components. -/
def splitTok (tok : Option String) : Option String × Option String × Option String :=
  let parts := strSplitOnChar '|' (tok.getD "")
  (parts.get? 0, parts.get? 1, parts.get? 2)

/-- The discovery dispatch of main (src/scrape_jobs.py lines 1003-1080):
one arm per discoverable backend, each rerunning the matching adapter with
the discovered identifier and replacing the displayed ats label; the final
else arm is the generic fallback chain.  The label handling of the
generic arm (ats or HTML, only on success) is not modelled; no claim
depends on it. -/
def discoveryBranch (A : Adapters) (domain : Option String)
    (disc : Option String × Option String) :
    Option (List Job) × Option String × List (String × Option String) :=
  let tok := disc.2
  if disc.1 = some "greenhouse" then (some (A.greenhouse tok), some "Greenhouse", [("greenhouse", tok)])
  else if disc.1 = some "lever" then (some (A.lever tok), some "Lever", [("lever", tok)])
  else if disc.1 = some "workable" then (some (A.workable tok), some "Workable", [("workable", tok)])
  else if disc.1 = some "ashby" then (some (A.ashby tok), some "Ashby", [("ashby", tok)])
  else if disc.1 = some "recruitee" then (some (A.recruitee tok), some "Recruitee", [("recruitee", tok)])
  else if disc.1 = some "personio" then (some (A.personio tok), some "Personio", [("personio", tok)])
  else if disc.1 = some "workday" then
    let hts := splitTok tok
    (some (A.workday hts.1 hts.2.1 hts.2.2), some "Workday", [("workday", tok)])
  else if disc.1 = some "bamboohr" then (some (A.bamboohr tok), some "BambooHR", [("bamboohr", tok)])
  else if disc.1 = some "smartrecruiters" then (some (A.smartrecruiters tok), some "SmartRecruiters", [("smartrecruiters", tok)])
  else if disc.1 = some "breezy" then (A.breezy tok, some "Breezy", [("breezy", tok)])
  else if disc.1 = some "keka" then (some (A.keka tok), some "Keka", [("keka", tok)])
  else if disc.1 = some "deel" then (some (A.deel tok), some "Deel", [("deel", tok)])
  else if disc.1 = some "polymer" then (some (A.polymer tok), some "Polymer", [("polymer", tok)])
  else (some (A.generic domain), none, [("generic", domain)])

/-- The backends the declared-backend dispatch can invoke: the eleven
handled branches together with the two same-backend HTML fallbacks. -/
def declaredCallTags : List String :=
  ["lever", "lever_html", "greenhouse", "greenhouse_html", "workable", "ashby",
   "recruitee", "personio", "breezy", "wellfound", "keka", "deel", "polymer"]

/- ------------------------------------------------------------------ -/
/- Lemmas about the slug de-duplication loop                           -/
/- ------------------------------------------------------------------ -/

/-- Membership in the de-duplicated candidate list: exactly the nonempty
input candidates not already seen. -/
theorem mem_dedupSlugs (v : String) :
    ∀ (l seen : List String), v ∈ dedupSlugs seen l ↔ v ∈ l ∧ v ≠ "" ∧ v ∉ seen := by
  intro l
  induction l with
  | nil => intro seen; simp [dedupSlugs]
  | cons a rest ih =>
      intro seen
      by_cases h : a ≠ "" ∧ a ∉ seen
      · simp only [dedupSlugs, if_pos h, List.mem_cons]
        constructor
        · rintro (rfl | hv)
          · exact ⟨Or.inl rfl, h.1, h.2⟩
          · have hm := (ih _).mp hv
            refine ⟨Or.inr hm.1, hm.2.1, fun hs => hm.2.2 (List.mem_cons_of_mem _ hs)⟩
        · rintro ⟨hv, hne, hns⟩
          by_cases hva : v = a
          · exact Or.inl hva
          · rcases hv with rfl | hv
            · exact Or.inl rfl
            · refine Or.inr ((ih _).mpr ⟨hv, hne, ?_⟩)
              intro hs
              rcases List.mem_cons.mp hs with rfl | hs
              · exact hva rfl
              · exact hns hs
      · simp only [dedupSlugs, if_neg h]
        rw [ih]
        constructor
        · rintro ⟨hv, hne, hns⟩
          exact ⟨List.mem_cons_of_mem _ hv, hne, hns⟩
        · rintro ⟨hv, hne, hns⟩
          rcases List.mem_cons.mp hv with rfl | hv
          · exfalso
            rcases not_and_or.mp h with h1 | h1
            · exact hne (not_not.mp h1)
            · exact hns (not_not.mp h1)
          · exact ⟨hv, hne, hns⟩

/-- The de-duplicated candidate list has no duplicates. -/
theorem nodup_dedupSlugs : ∀ (l seen : List String), (dedupSlugs seen l).Nodup := by
  intro l
  induction l with
  | nil => intro seen; simp [dedupSlugs]
  | cons a rest ih =>
      intro seen
      by_cases h : a ≠ "" ∧ a ∉ seen
      · simp only [dedupSlugs, if_pos h]
        refine List.Nodup.cons ?_ (ih _)
        intro hmem
        exact ((mem_dedupSlugs a rest (a :: seen)).mp hmem).2.2 (List.mem_cons_self a seen)
      · simp only [dedupSlugs, if_neg h]
        exact ih _

/-- The de-duplicated candidate list is an order-preserving selection from
the raw candidate list. -/
theorem sublist_dedupSlugs : ∀ (l seen : List String), (dedupSlugs seen l).Sublist l := by
  intro l
  induction l with
  | nil => intro seen; simp [dedupSlugs]
  | cons a rest ih =>
      intro seen
      by_cases h : a ≠ "" ∧ a ∉ seen
      · simp only [dedupSlugs, if_pos h]
        exact List.Sublist.cons₂ a (ih _)
      · simp only [dedupSlugs, if_neg h]
        exact (ih seen).trans (List.sublist_cons_self a rest)

/- ------------------------------------------------------------------ -/
/- Claim theorems C1 and C8                                            -/
/- ------------------------------------------------------------------ -/

/-- C1: the claim states that every backend adapter returns a list for
every input and in particular that fetch_breezy_jobs does.  The code
violates it: for a truthy subdomain the function body consists only of
the falsy guard (its intended body is unreachable inside the following
definition), so the call returns Python None, not a list.  This theorem
evaluates the model at the failing input. -/
theorem claim_C1_breezy_returns_none : fetch_breezy_jobs (some "acme") 10 = none := by
  decide

/-- C8: generate_slug_variants returns a duplicate-free sequence without
empty strings; the domain-derived label is the first candidate whenever it
is supplied and truthy; the result is an order-preserving selection from
the raw candidate sequence (label, base slug, then the five suffixed
variants in their fixed order) containing every truthy raw candidate, so
each candidate appears exactly once in that order. -/
theorem claim_C8_slug_variants (name : String) (label : Option String) :
    (generate_slug_variants name label).Nodup ∧
    (∀ v ∈ generate_slug_variants name label, v ≠ "") ∧
    (∀ l : String, label = some l → l ≠ "" →
      (generate_slug_variants name label).head? = some l) ∧
    (generate_slug_variants name label).Sublist (slugRawVariants name label) ∧
    (∀ v ∈ slugRawVariants name label, v ≠ "" → v ∈ generate_slug_variants name label) := by
  refine ⟨nodup_dedupSlugs _ _, ?_, ?_, sublist_dedupSlugs _ _, ?_⟩
  · intro v hv
    exact ((mem_dedupSlugs v _ _).mp hv).2.1
  · rintro l rfl hl
    unfold generate_slug_variants
    have hraw : slugRawVariants name (some l) =
        l :: (slugRawVariants name (some l)).tail := by
      unfold slugRawVariants
      simp [pyTruthy, hl]
    rw [hraw]
    simp only [dedupSlugs]
    rw [if_pos ⟨hl, List.not_mem_nil l⟩]
    rfl
  · intro v hv hne
    exact (mem_dedupSlugs v _ _).mpr ⟨hv, hne, List.not_mem_nil v⟩

/-- Witness for C8 at the example of the specification: name Acme Labs
with domain label acme puts acme first, followed by the name-derived
acme-labs. -/
theorem claim_C8_witness :
    (generate_slug_variants "Acme Labs" (some "acme")).head? = some "acme" ∧
    "acme-labs" ∈ generate_slug_variants "Acme Labs" (some "acme") := by
  constructor
  · exact (claim_C8_slug_variants "Acme Labs" (some "acme")).2.2.1 "acme" rfl (by decide)
  · exact (claim_C8_slug_variants "Acme Labs" (some "acme")).2.2.2.2 "acme-labs"
      (by decide) (by decide)

/- ------------------------------------------------------------------ -/
/- Lemmas for the identity normalizer and claim C9                     -/
/- ------------------------------------------------------------------ -/

/-- A takeWhile over a list every element of which satisfies the predicate
is the identity. -/
theorem takeWhile_eq_self_of_all (p : Char → Bool) :
    ∀ l : List Char, (∀ c ∈ l, p c = true) → l.takeWhile p = l := by
  intro l
  induction l with
  | nil => intro; rfl
  | cons c rest ih =>
      intro h
      have hc : p c = true := h c (List.mem_cons_self c rest)
      simp only [List.takeWhile_cons, hc, if_pos]
      rw [ih (fun d hd => h d (List.mem_cons_of_mem c hd))]

/-- The netloc our urlparse model extracts from an https URL built over an
arbitrary tail: the tail up to the first stop character. -/
theorem urlparseNetloc_https (h : String) :
    urlparseNetloc ("https://" ++ h).data =
      h.data.takeWhile (fun c => !netlocStop c) := by
  rw [String.data_append]
  rfl

/-- C9 counterexample: the claim asserts normalize_domain is idempotent on
every hostname it has produced and never raises.  The code violates both:
from https colon slash slash www.www.example.com it produces the hostname
www.www.example.com, yet normalizing that hostname again strips another
www. label and yields example.com; and the input consisting of a single
opening square bracket makes urlparse raise ValueError (Invalid IPv6
URL), which normalize_domain does not catch. -/
theorem claim_C9_counterexample :
    normalize_domain (some "https://www.www.example.com") = .ok (some "www.example.com") ∧
    normalize_domain (some "www.example.com") = .ok (some "example.com") ∧
    normalize_domain (some "[") = .error () :=
  ⟨rfl, rfl, rfl⟩

/-- C9 amended: normalize_domain returns absent for non-string input, for
blank input and for input whose stripped form begins with the No website:
sentinel; it raises (rather than never raising) when the derived netloc
has mismatched square brackets; and it is idempotent on hostnames that
are nonempty, already stripped and lowercase, free of slash, question
mark and hash, have matching bracket occurrence, and do not begin with
www., http or the sentinel (produced hostnames violating these conditions
are exactly the counterexamples). -/
theorem claim_C9_normalize_amended :
    normalize_domain none = .ok none ∧
    (∀ s : String, strTrim s = "" → normalize_domain (some s) = .ok none) ∧
    (∀ s : String, strTrim s ≠ "" → strStartsWith (strTrim s) "No website:" = true →
      normalize_domain (some s) = .ok none) ∧
    (∀ h : String, h ≠ "" → strTrim h = h →
      strStartsWith h "No website:" = false → strLower h = h →
      strStartsWith h "www." = false → strStartsWith h "http" = false →
      (∀ c ∈ h.data, netlocStop c = false) →
      (h.data.any (· == '[')) = (h.data.any (· == ']')) →
      normalize_domain (some h) = .ok (some h)) := by
  refine ⟨rfl, ?_, ?_, ?_⟩
  · intro s hs
    simp [normalize_domain, hs]
  · intro s hne hs
    simp [normalize_domain, hne, hs]
  · intro h hne htrim hsent hlow hwww hhttp hstop hbr
    have hiv : invalidIpv6 h.data = false := by
      unfold invalidIpv6
      rw [hbr]
      cases h.data.any (· == ']') <;> rfl
    have htw : h.data.takeWhile (fun c => !netlocStop c) = h.data :=
      takeWhile_eq_self_of_all _ _ (fun c hc => by simp [hstop c hc])
    have hmk : String.mk h.data = h := rfl
    simp only [normalize_domain, htrim, if_neg hne, hsent, Bool.false_eq_true, if_false,
      hhttp, urlparseNetloc_https, htw, hmk, hiv, hlow, hwww]

/-- Witness for the amended C9: a well-formed hostname is a fixed point,
and blank input yields absent. -/
theorem claim_C9_witness :
    normalize_domain (some "example.com") = .ok (some "example.com") ∧
    normalize_domain (some "   ") = .ok none := by
  constructor
  · exact claim_C9_normalize_amended.2.2.2 "example.com" (by decide) (by decide) (by decide)
      (by decide) (by decide) (by decide) (by decide) (by decide)
  · exact claim_C9_normalize_amended.2.1 "   " (by decide)

/- ------------------------------------------------------------------ -/
/- Lemmas for the Discovery Sniffer and claim C2                       -/
/- ------------------------------------------------------------------ -/

/-- Reference description of what the candidate loop actually computes:
the battery outcome of the first candidate URL whose response is present,
has status 200 and matches some fingerprint. -/
def discoverSpec (world : String → Option HttpResp) (urls : List String) :
    Option (String × String) :=
  (urls.filterMap (fun u =>
    match world u with
    | none => none
    | some r => if r.status = 200 then sniffPage r.page else none)).head?

/-- The discovery candidate loop returns the first battery match across
all candidates, skipping failed requests, non-200 responses and
successful pages on which no fingerprint matches. -/
theorem discoverLoop_eq_spec (world : String → Option HttpResp) :
    ∀ urls : List String,
      discoverLoop world urls =
        match discoverSpec world urls with
        | some r => (some r.1, some r.2)
        | none => (none, none) := by
  intro urls
  induction urls with
  | nil => rfl
  | cons u rest ih =>
      have hcons : discoverSpec world (u :: rest) =
          ((match world u with
            | none => none
            | some r => if r.status = 200 then sniffPage r.page else none) :
              Option (String × String)).orElse (fun _ => discoverSpec world rest) := by
        unfold discoverSpec
        rw [List.filterMap_cons]
        cases (match world u with
               | none => (none : Option (String × String))
               | some r => if r.status = 200 then sniffPage r.page else none) with
        | none => simp [Option.orElse]
        | some b => simp [Option.orElse]
      rw [hcons]
      show (match world u with
            | none => discoverLoop world rest
            | some resp =>
                if resp.status ≠ 200 then discoverLoop world rest
                else
                  match sniffPage resp.page with
                  | some r => (some r.1, some r.2)
                  | none => discoverLoop world rest) = _
      cases hw : world u with
      | none => simpa using ih
      | some r =>
          dsimp only
          by_cases hs : r.status = 200
          · rw [if_neg (by simp [hs])]
            simp only [hs, if_pos]
            cases hp : sniffPage r.page with
            | none => simpa using ih
            | some b => simp [Option.orElse]
          · rw [if_pos hs]
            simp only [if_neg hs]
            simpa using ih

/-- C2 counterexample world: the first candidate careers path returns a
successful page on which no fingerprint matches; the second candidate
returns a successful page carrying a lever link. -/
def c2World (url : String) : Option HttpResp :=
  if url = "https://example.com/careers" then some ⟨200, ⟨"<p>welcome</p>", []⟩⟩
  else if url = "https://example.com/jobs" then
    some ⟨200, ⟨"see https://jobs.lever.co/acme now", []⟩⟩
  else none

/-- C2 counterexample: the claim asserts the sniffer returns absent/absent
as soon as the first candidate path yields a success response with no
fingerprint match.  In this world the first candidate succeeds with
status 200 and its page matches no pattern, yet the function does not
return absent/absent: it advances to the next candidate and returns the
lever match found there. -/
theorem claim_C2_counterexample :
    c2World "https://example.com/careers" = some ⟨200, ⟨"<p>welcome</p>", []⟩⟩ ∧
    sniffPage ⟨"<p>welcome</p>", []⟩ = none ∧
    (discoverCandidates "example.com").head? = some "https://example.com/careers" ∧
    discover_ats_from_website c2World (some "example.com") = (some "lever", some "acme") :=
  ⟨rfl, rfl, rfl, rfl⟩

/-- C2 amended: discover_ats_from_website returns, over the fixed ordered
candidate paths, the fingerprint result of the first candidate whose
request succeeds with status 200 and whose page matches some pattern; it
advances to the next candidate not only on request failure or non-200
status but also when a successful page matches no pattern, and returns
absent/absent only once all candidates are exhausted (or the domain is
falsy). -/
theorem claim_C2_discover_amended (world : String → Option HttpResp) (domain : Option String) :
    discover_ats_from_website world domain =
      if pyTruthy domain then
        match discoverSpec world (discoverCandidates (domain.getD "")) with
        | some r => (some r.1, some r.2)
        | none => (none, none)
      else (none, none) := by
  unfold discover_ats_from_website
  by_cases hd : pyTruthy domain
  · simp only [hd, if_pos]
    exact discoverLoop_eq_spec world _
  · simp [hd]

/- ------------------------------------------------------------------ -/
/- Lemmas for the Diff/Persistence Engine and claims C4, C5            -/
/- ------------------------------------------------------------------ -/

/-- Key membership in the de-duplicated row list: exactly the keys of the
input not already seen. -/
theorem mem_keys_dropDupKeys (k : String) :
    ∀ (l : List Row) (seen : List String),
      k ∈ (dropDupKeys seen l).map rowKey ↔ k ∈ l.map rowKey ∧ k ∉ seen := by
  intro l
  induction l with
  | nil => intro seen; simp [dropDupKeys]
  | cons r rest ih =>
      intro seen
      by_cases h : rowKey r ∈ seen
      · simp only [dropDupKeys, if_pos h, List.map_cons, List.mem_cons]
        rw [ih]
        constructor
        · rintro ⟨hk, hs⟩
          exact ⟨Or.inr hk, hs⟩
        · rintro ⟨hk | hk, hs⟩
          · exact absurd (hk ▸ h) hs
          · exact ⟨hk, hs⟩
      · simp only [dropDupKeys, if_neg h, List.map_cons, List.mem_cons]
        rw [ih]
        constructor
        · rintro (rfl | ⟨hk, hs⟩)
          · exact ⟨Or.inl rfl, h⟩
          · exact ⟨Or.inr hk, fun hs2 => hs (List.mem_cons_of_mem _ hs2)⟩
        · rintro ⟨hk | hk, hs⟩
          · exact Or.inl hk
          · by_cases hkr : k = rowKey r
            · exact Or.inl hkr
            · refine Or.inr ⟨hk, fun hs2 => ?_⟩
              rcases List.mem_cons.mp hs2 with h3 | h3
              · exact hkr h3
              · exact hs h3

/-- The de-duplicated row list has pairwise distinct keys. -/
theorem nodup_keys_dropDupKeys :
    ∀ (l : List Row) (seen : List String), ((dropDupKeys seen l).map rowKey).Nodup := by
  intro l
  induction l with
  | nil => intro seen; simp [dropDupKeys]
  | cons r rest ih =>
      intro seen
      by_cases h : rowKey r ∈ seen
      · simp only [dropDupKeys, if_pos h]
        exact ih _
      · simp only [dropDupKeys, if_neg h, List.map_cons]
        refine List.Nodup.cons ?_ (ih _)
        intro hmem
        exact ((mem_keys_dropDupKeys _ rest _).mp hmem).2 (List.mem_cons_self _ _)

/-- The de-duplicated row list is an order-preserving selection of the
input rows. -/
theorem dropDupKeys_sublist :
    ∀ (l : List Row) (seen : List String), (dropDupKeys seen l).Sublist l := by
  intro l
  induction l with
  | nil => intro seen; simp [dropDupKeys]
  | cons r rest ih =>
      intro seen
      by_cases h : rowKey r ∈ seen
      · simp only [dropDupKeys, if_pos h]
        exact (ih seen).trans (List.sublist_cons_self r rest)
      · simp only [dropDupKeys, if_neg h]
        exact List.Sublist.cons₂ r (ih _)

/-- For a key not yet seen, the first row found in the de-duplicated list
is the first row found in the input: first occurrences survive. -/
theorem find?_dropDupKeys (k : String) :
    ∀ (l : List Row) (seen : List String), k ∉ seen →
      (dropDupKeys seen l).find? (fun r => rowKey r == k) =
        l.find? (fun r => rowKey r == k) := by
  intro l
  induction l with
  | nil => intro seen _; simp [dropDupKeys]
  | cons r rest ih =>
      intro seen hk
      by_cases h : rowKey r ∈ seen
      · have hne : ¬ ((rowKey r == k) = true) := by
          simp only [beq_iff_eq]
          intro he
          exact hk (he ▸ h)
        simp only [dropDupKeys, if_pos h]
        rw [List.find?_cons_of_neg rest hne, ih seen hk]
      · simp only [dropDupKeys, if_neg h]
        by_cases he : rowKey r = k
        · rw [List.find?_cons_of_pos _ (by simp [he]), List.find?_cons_of_pos _ (by simp [he])]
        · rw [List.find?_cons_of_neg _ (by simp [he]), List.find?_cons_of_neg _ (by simp [he])]
          refine ih _ fun hmem => ?_
          rcases List.mem_cons.mp hmem with h3 | h3
          · exact he h3.symm
          · exact hk h3

/-- A list all of whose keys are already seen de-duplicates to nothing. -/
theorem dropDupKeys_eq_nil :
    ∀ (m : List Row) (seen : List String),
      (∀ r ∈ m, rowKey r ∈ seen) → dropDupKeys seen m = [] := by
  intro m
  induction m with
  | nil => intro seen _; rfl
  | cons r rest ih =>
      intro seen hm
      simp only [dropDupKeys, if_pos (hm r (List.mem_cons_self r rest))]
      exact ih seen (fun r2 h2 => hm r2 (List.mem_cons_of_mem r h2))

/-- Appending rows whose keys all occur in the front list (or are already
seen) does not change the de-duplicated result. -/
theorem dropDupKeys_append_absorb :
    ∀ (l m : List Row) (seen : List String),
      (∀ r ∈ m, rowKey r ∈ l.map rowKey ∨ rowKey r ∈ seen) →
      dropDupKeys seen (l ++ m) = dropDupKeys seen l := by
  intro l
  induction l with
  | nil =>
      intro m seen hm
      simp only [List.nil_append, dropDupKeys]
      exact dropDupKeys_eq_nil m seen (fun r hr => by
        rcases hm r hr with hk | hk
        · simp at hk
        · exact hk)
  | cons r rest ih =>
      intro m seen hm
      by_cases h : rowKey r ∈ seen
      · simp only [List.cons_append, dropDupKeys, if_pos h]
        refine ih m seen fun r2 h2 => ?_
        rcases hm r2 h2 with hk | hk
        · rw [List.map_cons] at hk
          rcases List.mem_cons.mp hk with h3 | h3
          · exact Or.inr (h3 ▸ h)
          · exact Or.inl h3
        · exact Or.inr hk
      · simp only [List.cons_append, dropDupKeys, if_neg h]
        congr 1
        refine ih m _ fun r2 h2 => ?_
        rcases hm r2 h2 with hk | hk
        · rw [List.map_cons] at hk
          rcases List.mem_cons.mp hk with h3 | h3
          · exact Or.inr (by simp [h3])
          · exact Or.inl h3
        · exact Or.inr (List.mem_cons_of_mem _ hk)

/-- A list with pairwise distinct keys, none of them seen, is a fixed
point of the de-duplication. -/
theorem dropDupKeys_fix :
    ∀ (l : List Row) (seen : List String),
      (l.map rowKey).Nodup → (∀ r ∈ l, rowKey r ∉ seen) →
      dropDupKeys seen l = l := by
  intro l
  induction l with
  | nil => intro seen _ _; rfl
  | cons r rest ih =>
      intro seen hnd hs
      simp only [dropDupKeys, if_neg (hs r (List.mem_cons_self r rest))]
      congr 1
      refine ih _ (by simpa using (List.nodup_cons.mp (by simpa using hnd)).2) ?_
      intro r2 h2 hmem
      rcases List.mem_cons.mp hmem with h3 | h3
      · exact (List.nodup_cons.mp (by simpa using hnd)).1 (h3 ▸ List.mem_map_of_mem rowKey h2)
      · exact hs r2 (List.mem_cons_of_mem r h2) h3

/-- C4: the new-rows output consists of exactly the current-run rows whose
composite key is absent from the persisted store; and for a second run
whose rows carry the same keys as the first run (unchanged roster and
live data; the run date is not part of the key), the second diff is empty
and the rewritten store keeps its row count. -/
theorem claim_C4_diff_new_rows (outRows baseRows out2 : List Row) :
    (∀ r : Row, r ∈ diffRows outRows baseRows ↔
        r ∈ outRows ∧ rowKey r ∉ baseRows.map rowKey) ∧
    ((∀ r ∈ out2, rowKey r ∈ outRows.map rowKey) →
      diffRows out2 (updatedBase baseRows outRows) = [] ∧
      (updatedBase (updatedBase baseRows outRows) out2).length =
        (updatedBase baseRows outRows).length) := by
  constructor
  · intro r
    simp [diffRows, List.mem_filter]
  · intro h2
    have hbase1 : ∀ r ∈ out2, rowKey r ∈ (updatedBase baseRows outRows).map rowKey := by
      intro r hr
      rw [updatedBase, mem_keys_dropDupKeys]
      refine ⟨?_, List.not_mem_nil _⟩
      rw [List.map_append]
      exact List.mem_append_right _ (h2 r hr)
    have habsorb : updatedBase (updatedBase baseRows outRows) out2 =
        updatedBase baseRows outRows := by
      rw [updatedBase, dropDupKeys_append_absorb _ _ _ (fun r hr => Or.inl (hbase1 r hr))]
      exact dropDupKeys_fix _ _ (nodup_keys_dropDupKeys _ _)
        (fun r _ => List.not_mem_nil _)
    refine ⟨?_, by rw [habsorb]⟩
    rw [diffRows, List.filter_eq_nil_iff]
    intro r hr
    simp only [decide_not, Bool.not_eq_true, decide_eq_false_iff_not, not_not]
    simpa using hbase1 r hr

/-- C5: the rewritten persisted store is the key-deduplicated union of the
previous store and the current run: its keys are pairwise distinct, every
row comes from the previous store or the current run, the row kept for
any key is the earliest-seen row (store first, then run order), and for a
key already present in the previous store it is exactly the previous
store's first row with that key. -/
theorem claim_C5_store_dedup_union (baseRows outRows : List Row) :
    ((updatedBase baseRows outRows).map rowKey).Nodup ∧
    (∀ r ∈ updatedBase baseRows outRows, r ∈ baseRows ++ outRows) ∧
    (∀ k : String,
      (updatedBase baseRows outRows).find? (fun r => rowKey r == k) =
        (baseRows ++ outRows).find? (fun r => rowKey r == k)) ∧
    (∀ k : String, k ∈ baseRows.map rowKey →
      (updatedBase baseRows outRows).find? (fun r => rowKey r == k) =
        baseRows.find? (fun r => rowKey r == k)) := by
  have hfind : ∀ k : String,
      (updatedBase baseRows outRows).find? (fun r => rowKey r == k) =
        (baseRows ++ outRows).find? (fun r => rowKey r == k) :=
    fun k => find?_dropDupKeys k _ [] (List.not_mem_nil k)
  refine ⟨nodup_keys_dropDupKeys _ _, ?_, hfind, ?_⟩
  · intro r hr
    exact (dropDupKeys_sublist _ _).mem hr
  · intro k hk
    rw [hfind k]
    clear hfind
    induction baseRows with
    | nil => simp at hk
    | cons b rest ih =>
        by_cases he : rowKey b = k
        · rw [List.cons_append, List.find?_cons_of_pos _ (by simp [he]),
            List.find?_cons_of_pos _ (by simp [he])]
        · rw [List.cons_append, List.find?_cons_of_neg _ (by simp [he]),
            List.find?_cons_of_neg _ (by simp [he])]
          apply ih
          rw [List.map_cons] at hk
          rcases List.mem_cons.mp hk with h3 | h3
          · exact absurd h3.symm he
          · exact h3

/- ------------------------------------------------------------------ -/
/- Sample rows for concrete instantiations                             -/
/- ------------------------------------------------------------------ -/

/-- A located sample row. -/
def rowA : Row :=
  ⟨"Acme", "acme.io", "Lever", some "Engineer", "Remote", none, none, "", none, none,
   some "https://jobs/1", "src", "2024-01-01"⟩

/-- A second located sample row with a different key. -/
def rowB : Row :=
  ⟨"Acme", "acme.io", "Lever", some "Designer", "Berlin", none, none, "", none, none,
   some "https://jobs/2", "src", "2024-01-01"⟩

/-- The first sample row as a later run would produce it: only the run
date differs, so the composite key is unchanged. -/
def rowA2 : Row := { rowA with date := "2024-01-02" }

/-- Witness for C4: a second run over unchanged data (same keys, new run
date) produces an empty diff and leaves the store size unchanged. -/
theorem claim_C4_witness :
    diffRows [rowA2] (updatedBase [rowB] [rowA]) = [] ∧
    (updatedBase (updatedBase [rowB] [rowA]) [rowA2]).length =
      (updatedBase [rowB] [rowA]).length :=
  (claim_C4_diff_new_rows [rowA] [rowB] [rowA2]).2 (by decide)

/-- Witness for C5: for a key already in the previous store, the
rewritten store keeps the previous store's row even when the current run
carries a row with the same key. -/
theorem claim_C5_witness :
    (updatedBase [rowA] [rowA2, rowB]).find? (fun r => rowKey r == rowKey rowA) =
      [rowA].find? (fun r => rowKey r == rowKey rowA) :=
  (claim_C5_store_dedup_union [rowA] [rowA2, rowB]).2.2.2 (rowKey rowA) (by decide)

/- ------------------------------------------------------------------ -/
/- Lemmas about the aggregation loops                                  -/
/- ------------------------------------------------------------------ -/

/-- With enough global headroom, the per-job loop appends exactly the
rows of the location-filtered jobs, in order, and advances the counter by
their number: the location filter acts on the job list the adapter
already clipped. -/
theorem mainJobLoop_rows (ctx : CompanyCtx) (maxTot : Nat) :
    ∀ (jobs : List Job) (s : RunState),
      s.total + (jobs.filter keepJob).length ≤ maxTot →
      mainJobLoop ctx maxTot jobs s =
        ⟨s.rows ++ (jobs.filter keepJob).map (mkRow ctx),
         s.total + (jobs.filter keepJob).length⟩ := by
  intro jobs
  induction jobs with
  | nil => intro s h; simp [mainJobLoop]
  | cons j rest ih =>
      intro s h
      by_cases hk : keepJob j
      · have hlen : ((j :: rest).filter keepJob).length = (rest.filter keepJob).length + 1 := by
          simp [List.filter_cons, hk]
        rw [hlen] at h
        simp only [mainJobLoop, if_neg (by omega : ¬ maxTot ≤ s.total), hk, if_pos]
        rw [ih _ (show s.total + 1 + (rest.filter keepJob).length ≤ maxTot by omega)]
        simp only [List.filter_cons, hk, if_pos, List.map_cons, List.length_cons,
          RunState.mk.injEq]
        constructor
        · rw [List.append_assoc]
          rfl
        · omega
      · have hlen : ((j :: rest).filter keepJob).length = (rest.filter keepJob).length := by
          simp [List.filter_cons, hk]
        by_cases hstop : maxTot ≤ s.total
        · have hzero : (rest.filter keepJob).length = 0 := by omega
          have hnil : rest.filter keepJob = [] := List.length_eq_zero.mp hzero
          simp only [mainJobLoop, if_pos hstop, List.filter_cons, hk, if_neg, hnil]
          simp
        · simp only [mainJobLoop, if_neg hstop, hk, if_neg, Bool.false_eq_true, if_false]
          rw [ih _ (by omega)]
          simp only [List.filter_cons, hk, Bool.false_eq_true, if_false]

/-- The per-job loop never pushes the counter past the cap. -/
theorem mainJobLoop_total_le (ctx : CompanyCtx) (maxTot : Nat) :
    ∀ (jobs : List Job) (s : RunState),
      s.total ≤ maxTot → (mainJobLoop ctx maxTot jobs s).total ≤ maxTot := by
  intro jobs
  induction jobs with
  | nil => intro s h; exact h
  | cons j rest ih =>
      intro s h
      by_cases hstop : maxTot ≤ s.total
      · simp only [mainJobLoop, if_pos hstop]; exact h
      · by_cases hk : keepJob j
        · simp only [mainJobLoop, if_neg hstop, hk, if_pos]
          exact ih _ (show s.total + 1 ≤ maxTot by omega)
        · simp only [mainJobLoop, if_neg hstop, hk, Bool.false_eq_true, if_false]
          exact ih _ h

/-- The row list and the counter of the per-job loop move in lockstep. -/
theorem mainJobLoop_lockstep (ctx : CompanyCtx) (maxTot : Nat) :
    ∀ (jobs : List Job) (s : RunState),
      s.rows.length = s.total →
      (mainJobLoop ctx maxTot jobs s).rows.length = (mainJobLoop ctx maxTot jobs s).total := by
  intro jobs
  induction jobs with
  | nil => intro s h; exact h
  | cons j rest ih =>
      intro s h
      by_cases hstop : maxTot ≤ s.total
      · simp only [mainJobLoop, if_pos hstop]; exact h
      · by_cases hk : keepJob j
        · simp only [mainJobLoop, if_neg hstop, hk, if_pos]
          exact ih _ (by simp [h])
        · simp only [mainJobLoop, if_neg hstop, hk, Bool.false_eq_true, if_false]
          exact ih _ h

/-- The per-company loop never pushes the counter past the cap. -/
theorem mainCompanyLoop_total_le (maxTot : Nat) :
    ∀ (cs : List (CompanyCtx × List Job)) (s : RunState),
      s.total ≤ maxTot → (mainCompanyLoop maxTot cs s).total ≤ maxTot := by
  intro cs
  induction cs with
  | nil => intro s h; exact h
  | cons c rest ih =>
      intro s h
      by_cases hstop : maxTot ≤ s.total
      · simp only [mainCompanyLoop, if_pos hstop]; exact h
      · simp only [mainCompanyLoop, if_neg hstop]
        exact ih _ (mainJobLoop_total_le c.1 maxTot c.2 s h)

/-- The row list and the counter of the per-company loop move in
lockstep. -/
theorem mainCompanyLoop_lockstep (maxTot : Nat) :
    ∀ (cs : List (CompanyCtx × List Job)) (s : RunState),
      s.rows.length = s.total →
      (mainCompanyLoop maxTot cs s).rows.length = (mainCompanyLoop maxTot cs s).total := by
  intro cs
  induction cs with
  | nil => intro s h; exact h
  | cons c rest ih =>
      intro s h
      by_cases hstop : maxTot ≤ s.total
      · simp only [mainCompanyLoop, if_pos hstop]; exact h
      · simp only [mainCompanyLoop, if_neg hstop]
        exact ih _ (mainJobLoop_lockstep c.1 maxTot c.2 s h)

/-- Once the counter has reached the cap the per-company loop does
nothing. -/
theorem mainCompanyLoop_stopped (maxTot : Nat) :
    ∀ (cs : List (CompanyCtx × List Job)) (s : RunState),
      maxTot ≤ s.total → mainCompanyLoop maxTot cs s = s := by
  intro cs
  induction cs with
  | nil => intro s _; rfl
  | cons c rest _ =>
      intro s h
      simp only [mainCompanyLoop, if_pos h]

/-- Companies listed after the point where the cap is reached contribute
nothing: the run over the longer roster equals the run over its prefix. -/
theorem mainCompanyLoop_append_break (maxTot : Nat) :
    ∀ (cs ds : List (CompanyCtx × List Job)) (s : RunState),
      maxTot ≤ (mainCompanyLoop maxTot cs s).total →
      mainCompanyLoop maxTot (cs ++ ds) s = mainCompanyLoop maxTot cs s := by
  intro cs
  induction cs with
  | nil =>
      intro ds s h
      simp only [List.nil_append]
      exact mainCompanyLoop_stopped maxTot ds s h
  | cons c rest ih =>
      intro ds s h
      by_cases hstop : maxTot ≤ s.total
      · simp only [List.cons_append, mainCompanyLoop, if_pos hstop]
      · simp only [List.cons_append, mainCompanyLoop, if_neg hstop]
        apply ih
        simpa only [mainCompanyLoop, if_neg hstop] using h

/- ------------------------------------------------------------------ -/
/- Claim C6: the global cap                                            -/
/- ------------------------------------------------------------------ -/

/-- C6: once the cumulative kept count reaches the global cap, no further
company is processed — every company after that point contributes zero
rows, the run over the extended roster being identical to the run over
the prefix — and the number of emitted rows never exceeds the global cap
(fixed to 1000 in the source, taken as a parameter here). -/
theorem claim_C6_global_cap (maxTot : Nat) (cs ds : List (CompanyCtx × List Job)) :
    (maxTot ≤ (mainCompanyLoop maxTot cs ⟨[], 0⟩).total →
      mainCompanyLoop maxTot (cs ++ ds) ⟨[], 0⟩ = mainCompanyLoop maxTot cs ⟨[], 0⟩) ∧
    (mainCompanyLoop maxTot (cs ++ ds) ⟨[], 0⟩).rows.length ≤ maxTot := by
  constructor
  · exact mainCompanyLoop_append_break maxTot cs ds ⟨[], 0⟩
  · rw [mainCompanyLoop_lockstep maxTot (cs ++ ds) ⟨[], 0⟩ rfl]
    exact mainCompanyLoop_total_le maxTot (cs ++ ds) ⟨[], 0⟩ (Nat.zero_le _)

/-- A located sample job. -/
def jobR : Job := ⟨some "T", some "Remote", none, none, "", some "u", "s"⟩

/-- A sample company context. -/
def ctxA : CompanyCtx := ⟨"Acme", "acme.io", "Lever", "", "2024-01-01"⟩

/-- Witness for C6 with a cap of one: the first company fills the cap and
the appended company contributes nothing. -/
theorem claim_C6_witness :
    mainCompanyLoop 1 ([(ctxA, [jobR, jobR])] ++ [(ctxA, [jobR])]) ⟨[], 0⟩ =
      mainCompanyLoop 1 [(ctxA, [jobR, jobR])] ⟨[], 0⟩ ∧
    (mainCompanyLoop 1 ([(ctxA, [jobR, jobR])] ++ [(ctxA, [jobR])]) ⟨[], 0⟩).rows.length ≤ 1 := by
  have h := claim_C6_global_cap 1 [(ctxA, [jobR, jobR])] [(ctxA, [jobR])]
  exact ⟨h.1 (by decide), h.2⟩

/- ------------------------------------------------------------------ -/
/- Claim C7: the location filter                                       -/
/- ------------------------------------------------------------------ -/

/-- Every row the per-job loop appends has a location that strips to a
nonempty string: only jobs passing the location filter produce rows. -/
theorem mainJobLoop_nonblank (ctx : CompanyCtx) (maxTot : Nat) :
    ∀ (jobs : List Job) (s : RunState),
      (∀ r ∈ s.rows, strTrim r.job_location ≠ "") →
      ∀ r ∈ (mainJobLoop ctx maxTot jobs s).rows, strTrim r.job_location ≠ "" := by
  intro jobs
  induction jobs with
  | nil => intro s h; exact h
  | cons j rest ih =>
      intro s h
      by_cases hstop : maxTot ≤ s.total
      · simp only [mainJobLoop, if_pos hstop]; exact h
      · by_cases hk : keepJob j
        · simp only [mainJobLoop, if_neg hstop, hk, if_pos]
          refine ih _ ?_
          intro r hr
          rcases List.mem_append.mp hr with hr | hr
          · exact h r hr
          · have hrj : r = mkRow ctx j := List.mem_singleton.mp hr
            subst hrj
            cases hj : j.job_location with
            | none => simp [keepJob, hj] at hk
            | some l =>
                have hl : l ≠ "" ∧ strTrim l ≠ "" := by simpa [keepJob, hj] using hk
                simpa [mkRow, hj] using hl.2
        · simp only [mainJobLoop, if_neg hstop, hk, Bool.false_eq_true, if_false]
          exact ih _ h

/-- The nonblank-location invariant carries through the per-company
loop. -/
theorem mainCompanyLoop_nonblank (maxTot : Nat) :
    ∀ (cs : List (CompanyCtx × List Job)) (s : RunState),
      (∀ r ∈ s.rows, strTrim r.job_location ≠ "") →
      ∀ r ∈ (mainCompanyLoop maxTot cs s).rows, strTrim r.job_location ≠ "" := by
  intro cs
  induction cs with
  | nil => intro s h; exact h
  | cons c rest ih =>
      intro s h
      by_cases hstop : maxTot ≤ s.total
      · simp only [mainCompanyLoop, if_pos hstop]; exact h
      · simp only [mainCompanyLoop, if_neg hstop]
        exact ih _ (mainJobLoop_nonblank c.1 maxTot c.2 s h)

/-- C7: a job whose location is absent or blank is excluded from every
output: every row the run emits has a location that strips nonempty,
hence so does every row of the new-rows output; and provided the
previously persisted rows satisfy the same invariant (they were produced
by earlier runs of this stage), every row of the rewritten store does
too. -/
theorem claim_C7_location_filter (maxTot : Nat) (companies : List (CompanyCtx × List Job))
    (baseRows : List Row) :
    (∀ r ∈ (mainCompanyLoop maxTot companies ⟨[], 0⟩).rows, strTrim r.job_location ≠ "") ∧
    (∀ r ∈ diffRows (mainCompanyLoop maxTot companies ⟨[], 0⟩).rows baseRows,
      strTrim r.job_location ≠ "") ∧
    ((∀ b ∈ baseRows, strTrim b.job_location ≠ "") →
      ∀ r ∈ updatedBase baseRows (mainCompanyLoop maxTot companies ⟨[], 0⟩).rows,
        strTrim r.job_location ≠ "") := by
  have hrows := mainCompanyLoop_nonblank maxTot companies ⟨[], 0⟩
    (by intro r hr; simp at hr)
  refine ⟨hrows, ?_, ?_⟩
  · intro r hr
    exact hrows r (List.mem_of_mem_filter hr)
  · intro hb r hr
    rcases List.mem_append.mp ((dropDupKeys_sublist _ _).mem hr) with h1 | h1
    · exact hb r h1
    · exact hrows r h1

/-- Witness for C7: the row emitted for a located job in a one-company
run survives into the rewritten store with a nonblank location. -/
theorem claim_C7_witness : strTrim (mkRow ctxA jobR).job_location ≠ "" :=
  (claim_C7_location_filter 5 [(ctxA, [jobR])] []).2.2
    (by intro b hb; simp at hb) (mkRow ctxA jobR) (by decide)

/- ------------------------------------------------------------------ -/
/- Claim C3: per-company cap and the order of cap and filter           -/
/- ------------------------------------------------------------------ -/

/-- A located Lever posting. -/
def leverLocated : LeverPosting :=
  ⟨some "Engineer", .other (some "Remote"), none, "", some "https://x/role", none⟩

/-- An unlocated Lever posting (its categories carry no location). -/
def leverUnlocated : LeverPosting :=
  ⟨some "Engineer", .other none, none, "", some "https://x/role0", none⟩

/-- A Lever API world whose primary endpoint returns 50 postings, the
first of them unlocated. -/
def leverNet50 : LeverNet :=
  ⟨some ⟨200, .ok (leverUnlocated :: List.replicate 49 leverLocated)⟩, none⟩

/-- C3 counterexample: the claim asserts that with a backend yielding 50
postings under a per-company cap of 10 exactly 10 postings are kept, the
location filter applying before the per-company cap is counted.  In this
world the backend yields 50 postings (49 of them located), the adapter
clips to its first 10 before any location check, and the location filter
then drops the unlocated one: only 9 rows are kept, not 10. -/
theorem claim_C3_counterexample :
    (leverUnlocated :: List.replicate 49 leverLocated).length = 50 ∧
    (fetch_lever_jobs leverNet50 (some "acme") 10).length = 10 ∧
    (mainJobLoop ctxA MAX_TOTAL_JOBS (fetch_lever_jobs leverNet50 (some "acme") 10)
      ⟨[], 0⟩).rows.length = 9 :=
  ⟨rfl, rfl, rfl⟩

/-- C3 amended: the per-company cap is enforced by the adapter, which
returns exactly the first max_jobs postings of the payload (so exactly 10
of 50 under a cap of 10); the location filter applies after that
clipping and before the global cap: the rows kept for the company are
exactly the located jobs among the clipped postings. -/
theorem claim_C3_amended (ps : List LeverPosting) (alt : Option LeverResp) (slug : String)
    (m : Nat) (ctx : CompanyCtx) (maxTot : Nat) (s : RunState)
    (hslug : slug ≠ "")
    (hroom : s.total + (((ps.take m).map
        (leverJobOf ("https://api.lever.co/v0/postings/" ++ slug))).filter keepJob).length ≤ maxTot) :
    fetch_lever_jobs ⟨some ⟨200, .ok ps⟩, alt⟩ (some slug) m =
      (ps.take m).map (leverJobOf ("https://api.lever.co/v0/postings/" ++ slug)) ∧
    (fetch_lever_jobs ⟨some ⟨200, .ok ps⟩, alt⟩ (some slug) m).length = min m ps.length ∧
    (mainJobLoop ctx maxTot (fetch_lever_jobs ⟨some ⟨200, .ok ps⟩, alt⟩ (some slug) m) s).rows =
      s.rows ++ (((ps.take m).map
        (leverJobOf ("https://api.lever.co/v0/postings/" ++ slug))).filter keepJob).map (mkRow ctx) := by
  have hfetch : fetch_lever_jobs ⟨some ⟨200, .ok ps⟩, alt⟩ (some slug) m =
      (ps.take m).map (leverJobOf ("https://api.lever.co/v0/postings/" ++ slug)) := by
    simp [fetch_lever_jobs, hslug, leverParse]
  refine ⟨hfetch, ?_, ?_⟩
  · rw [hfetch]
    simp
  · rw [hfetch, mainJobLoop_rows ctx maxTot _ s hroom]

/-- Witness for the amended C3 on a one-posting payload. -/
theorem claim_C3_witness :
    fetch_lever_jobs ⟨some ⟨200, .ok [leverLocated]⟩, none⟩ (some "acme") 10 =
      [leverJobOf "https://api.lever.co/v0/postings/acme" leverLocated] ∧
    (mainJobLoop ctxA 1000
      (fetch_lever_jobs ⟨some ⟨200, .ok [leverLocated]⟩, none⟩ (some "acme") 10)
      ⟨[], 0⟩).rows =
      [mkRow ctxA (leverJobOf "https://api.lever.co/v0/postings/acme" leverLocated)] := by
  have h := claim_C3_amended [leverLocated] none "acme" 10 ctxA 1000 ⟨[], 0⟩
    (by decide) (by decide)
  exact ⟨h.1.trans (by decide), h.2.2.trans (by decide)⟩

/- ------------------------------------------------------------------ -/
/- Claim C10: reachability of workday, bamboohr, smartrecruiters       -/
/- ------------------------------------------------------------------ -/

/-- Every adapter invocation of the candidate retry loop carries its
branch tag. -/
theorem candLoop_tags {α : Type} (f : Option String → α) (truthy : α → Bool) (tag : String) :
    ∀ (cands : List String) (cur : α) (e : String × Option String),
      e ∈ (candLoop f truthy tag cur cands).2 → e.1 = tag := by
  intro cands
  induction cands with
  | nil => intro cur e he; simp [candLoop] at he
  | cons c rest ih =>
      intro cur e he
      simp only [candLoop] at he
      by_cases ht : truthy (f (some c))
      · rw [if_pos ht] at he
        rw [List.mem_singleton.mp he]
      · rw [if_neg ht] at he
        rcases List.mem_cons.mp he with rfl | h
        · rfl
        · exact ih _ e h

/-- Every adapter invocation of a plain API branch carries its branch
tag. -/
theorem apiBranch_tags (f : Option String → List Job) (tag : String) (ident : Option String)
    (company : String) (domain : Option String) :
    ∀ e ∈ (apiBranch f tag ident company domain).2, e.1 = tag := by
  intro e he
  unfold apiBranch at he
  by_cases hj : f ident ≠ []
  · rw [if_pos hj] at he
    rw [List.mem_singleton.mp he]
  · rw [if_neg hj] at he
    rcases List.mem_cons.mp he with rfl | h
    · rfl
    · exact candLoop_tags f _ tag _ _ e h

/-- Every adapter invocation of the lever branch is the lever adapter or
its HTML fallback. -/
theorem leverBranch_tags (A : Adapters) (company : String) (domain tok : Option String) :
    ∀ e ∈ (leverBranch A company domain tok).2, e.1 = "lever" ∨ e.1 = "lever_html" := by
  intro e he
  unfold leverBranch at he
  set c := if A.lever (if company ≠ "" then
      match lookupStr lever_overrides (strLower company) with
      | some s => some s
      | none => pyOr tok (inferFirstLabel domain)
    else pyOr tok (inferFirstLabel domain)) ≠ [] then
      (A.lever (if company ≠ "" then
        match lookupStr lever_overrides (strLower company) with
        | some s => some s
        | none => pyOr tok (inferFirstLabel domain)
      else pyOr tok (inferFirstLabel domain)), ([] : List (String × Option String)))
    else candLoop A.lever (fun l => l ≠ []) "lever" (A.lever (if company ≠ "" then
        match lookupStr lever_overrides (strLower company) with
        | some s => some s
        | none => pyOr tok (inferFirstLabel domain)
      else pyOr tok (inferFirstLabel domain)))
      (generate_slug_variants company (inferFirstLabel domain)) with hc
  have hc2 : ∀ e2 ∈ c.2, e2.1 = "lever" := by
    intro e2 he2
    rw [hc] at he2
    by_cases hj : A.lever (if company ≠ "" then
        match lookupStr lever_overrides (strLower company) with
        | some s => some s
        | none => pyOr tok (inferFirstLabel domain)
      else pyOr tok (inferFirstLabel domain)) ≠ []
    · rw [if_pos hj] at he2
      simp at he2
    · rw [if_neg hj] at he2
      exact candLoop_tags A.lever _ "lever" _ _ e2 he2
  by_cases hres : c.1 ≠ []
  · rw [if_pos hres] at he
    rcases List.mem_cons.mp he with rfl | h
    · exact Or.inl rfl
    · exact Or.inl (hc2 e h)
  · rw [if_neg hres] at he
    rcases List.mem_cons.mp he with rfl | h
    · exact Or.inl rfl
    · rcases List.mem_append.mp h with h2 | h2
      · exact Or.inl (hc2 e h2)
      · rw [List.mem_singleton.mp h2]
        exact Or.inr rfl

/-- Every adapter invocation of the greenhouse branch is the greenhouse
adapter or its HTML fallback. -/
theorem greenhouseBranch_tags (A : Adapters) (company : String) (domain tok : Option String) :
    ∀ e ∈ (greenhouseBranch A company domain tok).2,
      e.1 = "greenhouse" ∨ e.1 = "greenhouse_html" := by
  intro e he
  unfold greenhouseBranch at he
  set c := if A.greenhouse (pyOr tok (inferFirstLabel domain)) ≠ [] then
      (A.greenhouse (pyOr tok (inferFirstLabel domain)), ([] : List (String × Option String)))
    else candLoop A.greenhouse (fun l => l ≠ []) "greenhouse"
      (A.greenhouse (pyOr tok (inferFirstLabel domain)))
      (generate_slug_variants company (inferFirstLabel domain)) with hc
  have hc2 : ∀ e2 ∈ c.2, e2.1 = "greenhouse" := by
    intro e2 he2
    rw [hc] at he2
    by_cases hj : A.greenhouse (pyOr tok (inferFirstLabel domain)) ≠ []
    · rw [if_pos hj] at he2
      simp at he2
    · rw [if_neg hj] at he2
      exact candLoop_tags A.greenhouse _ "greenhouse" _ _ e2 he2
  by_cases hres : c.1 ≠ []
  · rw [if_pos hres] at he
    rcases List.mem_cons.mp he with rfl | h
    · exact Or.inl rfl
    · exact Or.inl (hc2 e h)
  · rw [if_neg hres] at he
    rcases List.mem_cons.mp he with rfl | h
    · exact Or.inl rfl
    · rcases List.mem_append.mp h with h2 | h2
      · exact Or.inl (hc2 e h2)
      · rw [List.mem_singleton.mp h2]
        exact Or.inr rfl

/-- Every adapter invocation of the breezy branch carries the breezy
tag. -/
theorem breezyBranch_tags (A : Adapters) (company : String) (domain tok : Option String) :
    ∀ e ∈ (breezyBranch A company domain tok).2, e.1 = "breezy" := by
  intro e he
  unfold breezyBranch at he
  by_cases hj : pyJobsTruthy (A.breezy (pyOr tok (inferFirstLabel domain)))
  · rw [if_pos hj] at he
    rw [List.mem_singleton.mp he]
  · rw [if_neg hj] at he
    rcases List.mem_cons.mp he with rfl | h
    · rfl
    · exact candLoop_tags A.breezy _ "breezy" _ _ e h

/-- C10: a company whose declared ATS is workday, bamboohr or
smartrecruiters falls through the declared-backend dispatch to the final
else branch, receiving no adapter call at all (no primary call, no
candidate-slug retry loop); every adapter call the declared-backend
dispatch can make belongs to the eleven handled backends (plus the two
same-backend HTML fallbacks); and the workday, bamboohr and
smartrecruiters adapters are invoked by the discovery dispatch when the
Discovery Sniffer fingerprints them, so they are reachable only that
way. -/
theorem claim_C10_declared_dispatch (A : Adapters) (company : String) (domain tok : Option String) :
    (declaredBranch A "workday" company domain tok = (some [], []) ∧
     declaredBranch A "bamboohr" company domain tok = (some [], []) ∧
     declaredBranch A "smartrecruiters" company domain tok = (some [], [])) ∧
    (∀ ats : String, ∀ e ∈ (declaredBranch A ats company domain tok).2, e.1 ∈ declaredCallTags) ∧
    (∀ t : Option String,
      (discoveryBranch A domain (some "workday", t)).2.2 = [("workday", t)] ∧
      (discoveryBranch A domain (some "bamboohr", t)).2.2 = [("bamboohr", t)] ∧
      (discoveryBranch A domain (some "smartrecruiters", t)).2.2 = [("smartrecruiters", t)]) := by
  refine ⟨⟨rfl, rfl, rfl⟩, ?_, fun t => ⟨rfl, rfl, rfl⟩⟩
  intro ats e he
  rcases eq_or_ne ats "lever" with rfl | h1
  · rcases leverBranch_tags A company domain tok e he with h | h <;> rw [h] <;> decide
  rcases eq_or_ne ats "greenhouse" with rfl | h2
  · rcases greenhouseBranch_tags A company domain tok e he with h | h <;> rw [h] <;> decide
  rcases eq_or_ne ats "workable" with rfl | h3
  · rw [apiBranch_tags A.workable "workable" (pyOr tok (inferFirstLabel domain)) company domain e he]
    decide
  rcases eq_or_ne ats "ashby" with rfl | h4
  · rw [apiBranch_tags A.ashby "ashby" (pyOr tok (inferFirstLabel domain)) company domain e he]
    decide
  rcases eq_or_ne ats "recruitee" with rfl | h5
  · rw [apiBranch_tags A.recruitee "recruitee" (pyOr tok (inferFirstLabel domain)) company domain e he]
    decide
  rcases eq_or_ne ats "personio" with rfl | h6
  · rw [apiBranch_tags A.personio "personio" (pyOr tok (inferFirstLabel domain)) company domain e he]
    decide
  rcases eq_or_ne ats "breezy" with rfl | h7
  · rw [breezyBranch_tags A company domain tok e he]
    decide
  rcases eq_or_ne ats "wellfound" with rfl | h8
  · rw [apiBranch_tags A.wellfound "wellfound" (wfIdent tok domain company) company domain e he]
    decide
  rcases eq_or_ne ats "keka" with rfl | h9
  · rw [apiBranch_tags A.keka "keka" (pyOr tok (inferFirstLabel domain)) company domain e he]
    decide
  rcases eq_or_ne ats "deel" with rfl | h10
  · rw [apiBranch_tags A.deel "deel" (wfIdent tok domain company) company domain e he]
    decide
  rcases eq_or_ne ats "polymer" with rfl | h11
  · rw [apiBranch_tags A.polymer "polymer" (wfIdent tok domain company) company domain e he]
    decide
  have hnone : declaredBranch A ats company domain tok = (some [], []) := by
    unfold declaredBranch
    rw [if_neg h1, if_neg h2, if_neg h3, if_neg h4, if_neg h5, if_neg h6, if_neg h7,
      if_neg h8, if_neg h9, if_neg h10, if_neg h11]
  rw [hnone] at he
  simp at he

/-- An adapter assignment on which every call returns no jobs. -/
def trivAdapters : Adapters where
  lever _ := []
  lever_html _ := []
  greenhouse _ := []
  greenhouse_html _ := []
  workable _ := []
  ashby _ := []
  recruitee _ := []
  personio _ := []
  breezy _ := some []
  wellfound _ := []
  keka _ := []
  deel _ := []
  polymer _ := []
  workday _ _ _ := []
  bamboohr _ := []
  smartrecruiters _ := []
  generic _ := []

/-- Witness for C10: the workday declared value produces no calls, while
a declared lever value does invoke the lever adapter, whose tag belongs
to the handled backends. -/
theorem claim_C10_witness :
    declaredBranch trivAdapters "workday" "Acme" (some "acme.io") none = (some [], []) ∧
    ("lever" : String) ∈ declaredCallTags := by
  refine ⟨(claim_C10_declared_dispatch trivAdapters "Acme" (some "acme.io") none).1.1, ?_⟩
  exact (claim_C10_declared_dispatch trivAdapters "Acme" (some "acme.io") none).2.1 "lever"
    ("lever", some "acme") (by decide)
